import Mathlib

/-!
Shallow embedding of `src/main/c/cext/array.c` from TruffleRuby: the C
extension bridge for Ruby arrays.  Native code holds opaque handles to
managed values; each C function unwraps its handles, forwards a named
operation to the managed runtime, and wraps the result.

The managed runtime's own array methods (`push`, `pop`, `rotate!`, ...) and
the handle table (`rb_tr_wrap` / `rb_tr_unwrap`) live outside the given
source file; they are modelled from the specification (see the doc comments
marked "Modelled from the spec").  The C functions themselves are embedded
directly from `array.c`.
-/

set_option autoImplicit false

namespace CExtArray

/-- A managed value: `nil`, a boolean, an integer, or a reference to a
managed array held in the heap. -/
inductive MValue where
  | vnil : MValue
  | vbool : Bool → MValue
  | vint : Int → MValue
  | arrayRef : Nat → MValue
  deriving DecidableEq, Repr

/-- The managed world as seen through the bridge: the heap of managed
arrays (indexed by reference), the handle table for reference handles, and
a counter of managed-side invocations issued so far (one per dispatched
named operation). -/
structure MState where
  heap : List (List MValue)
  table : List MValue
  dispatches : Nat
  deriving DecidableEq, Repr

/-- A native handle: either a tagged immediate carrying the value in its
bit pattern, or a reference handle indexing the handle table. -/
inductive Handle where
  | imm : MValue → Handle
  | href : Nat → Handle
  deriving DecidableEq, Repr

/-- Modelled from the spec: `nil`, `true`, `false` and integers are tagged
immediates requiring no table entry; array references need a reference
handle. -/
def isTaggedImmediate : MValue → Bool
  | .arrayRef _ => false
  | _ => true

/-- Modelled from the spec: `wrap(value) -> handle`.  Immediates are
encoded directly; other values get a fresh reference handle (no
deduplication). -/
def rb_tr_wrap (s : MState) (v : MValue) : Handle × MState :=
  if isTaggedImmediate v then (.imm v, s)
  else (.href s.table.length, { s with table := s.table ++ [v] })

/-- Modelled from the spec: `unwrap(handle) -> value`, failing on a
malformed handle. -/
def rb_tr_unwrap (s : MState) (h : Handle) : Option MValue :=
  match h with
  | .imm v => if isTaggedImmediate v then some v else none
  | .href i => s.table.get? i

/-- The nil sentinel: a fixed tagged immediate. -/
def Qnil : Handle := .imm .vnil

/-- `NIL_P` from the C API: tests a handle against the nil sentinel. -/
def NIL_P (h : Handle) : Bool := h = Qnil

/-- Read the managed array at reference `r`. -/
def heapGet (s : MState) (r : Nat) : Option (List MValue) := s.heap.get? r

/-- Overwrite the managed array at reference `r` in place. -/
def heapSet (s : MState) (r : Nat) (l : List MValue) : MState :=
  { s with heap := s.heap.set r l }

/-- Allocate a fresh managed array. -/
def heapAlloc (s : MState) (l : List MValue) : Nat × MState :=
  (s.heap.length, { s with heap := s.heap ++ [l] })

/-- Count one managed-side invocation. -/
def tick (s : MState) : MState := { s with dispatches := s.dispatches + 1 }

/-- Ruby index normalisation: a negative index counts from the end; the
result is `none` when the index falls outside the array. -/
def normIndex (len : Nat) (i : Int) : Option Nat :=
  if i < 0 then
    if i + len < 0 then none else some (i + len).toNat
  else if i < len then some i.toNat else none

/-- Cyclic left shift by `n` (Ruby `rotate!` semantics: the element at
index `n mod len` becomes first; negative `n` rotates the other way). -/
def rotateList (l : List MValue) (n : Int) : List MValue :=
  if l.length = 0 then l else l.rotate (n % (l.length : Int)).toNat

/-- Remove the first element equal to `v`; `none` when no element is. -/
def deleteFirst : List MValue → MValue → Option (List MValue)
  | [], _ => none
  | x :: t, v => if x = v then some t else (deleteFirst t v).map (x :: ·)

/-- Insert an integer into a sorted list. -/
def insertInt (n : Int) : List Int → List Int
  | [] => [n]
  | m :: t => if n ≤ m then n :: m :: t else m :: insertInt n t

/-- Insertion sort on integers, standing in for the managed comparator. -/
def sortInts : List Int → List Int
  | [] => []
  | n :: t => insertInt n (sortInts t)

/-- Extract the integers of a list of managed values; `none` when some
element is not an integer (the managed comparator would raise). -/
def asInts : List MValue → Option (List Int)
  | [] => some []
  | .vint n :: t => (asInts t).map (n :: ·)
  | _ :: _ => none

/-- Ruby `[]=` on a list: in-range indices overwrite, an index at or past
the end extends the array with nils, a negative index out of range is an
error. -/
def storeAt (l : List MValue) (i : Int) (v : MValue) : Option (List MValue) :=
  if i < 0 then
    match normIndex l.length i with
    | none => none
    | some j => some (l.set j v)
  else
    let j := i.toNat
    if j < l.length then some (l.set j v)
    else some (l ++ List.replicate (j - l.length) .vnil ++ [v])

/-- Managed `Array#push`. -/
def m_push (s : MState) (r : Nat) (l : List MValue) : List MValue → Option (MValue × MState)
  | [v] => some (.arrayRef r, heapSet s r (l ++ [v]))
  | _ => none

/-- Managed `Array#pop`: removes and returns the last element, or nil when
empty. -/
def m_pop (s : MState) (r : Nat) (l : List MValue) : List MValue → Option (MValue × MState)
  | [] =>
    match l.getLast? with
    | none => some (.vnil, s)
    | some v => some (v, heapSet s r l.dropLast)
  | _ :: _ => none

/-- Managed `Array#shift`: removes and returns the first element, or nil
when empty. -/
def m_shift (s : MState) (r : Nat) (l : List MValue) : List MValue → Option (MValue × MState)
  | [] =>
    match l with
    | [] => some (.vnil, s)
    | v :: t => some (v, heapSet s r t)
  | _ :: _ => none

/-- Managed `Array#unshift`. -/
def m_unshift (s : MState) (r : Nat) (l : List MValue) : List MValue → Option (MValue × MState)
  | [v] => some (.arrayRef r, heapSet s r (v :: l))
  | _ => none

/-- Managed `Array#[]` with a single integer index: out-of-range reads
give the nil sentinel. -/
def m_aref (s : MState) (_r : Nat) (l : List MValue) : List MValue → Option (MValue × MState)
  | [.vint i] =>
    match normIndex l.length i with
    | none => some (.vnil, s)
    | some j => some (l.getD j .vnil, s)
  | _ => none

/-- Managed `Array#[]=`. -/
def m_aset (s : MState) (r : Nat) (l : List MValue) : List MValue → Option (MValue × MState)
  | [.vint i, v] =>
    match storeAt l i v with
    | none => none
    | some l' => some (v, heapSet s r l')
  | _ => none

/-- Managed `Array#delete`: removes the first element equal to the
argument (per the spec's contract), or returns nil when absent. -/
def m_delete (s : MState) (r : Nat) (l : List MValue) : List MValue → Option (MValue × MState)
  | [v] =>
    match deleteFirst l v with
    | none => some (.vnil, s)
    | some l' => some (v, heapSet s r l')
  | _ => none

/-- Managed `Array#delete_at`: removes and returns the element at the
index, or nil when out of range. -/
def m_delete_at (s : MState) (r : Nat) (l : List MValue) : List MValue → Option (MValue × MState)
  | [.vint i] =>
    match normIndex l.length i with
    | none => some (.vnil, s)
    | some j => some (l.getD j .vnil, heapSet s r (l.eraseIdx j))
  | _ => none

/-- Managed `Array#clear`. -/
def m_clear (s : MState) (r : Nat) (_l : List MValue) : List MValue → Option (MValue × MState)
  | [] => some (.arrayRef r, heapSet s r [])
  | _ :: _ => none

/-- Managed `Array#concat`: appends the elements of the argument array. -/
def m_concat (s : MState) (r : Nat) (l : List MValue) : List MValue → Option (MValue × MState)
  | [.arrayRef r2] =>
    match heapGet s r2 with
    | none => none
    | some l2 => some (.arrayRef r, heapSet s r (l ++ l2))
  | _ => none

/-- Managed `Array#reverse!`. -/
def m_reverse_bang (s : MState) (r : Nat) (l : List MValue) : List MValue → Option (MValue × MState)
  | [] => some (.arrayRef r, heapSet s r l.reverse)
  | _ :: _ => none

/-- Managed `Array#sort!`, on integer elements (the comparator raises on
anything else). -/
def m_sort_bang (s : MState) (r : Nat) (l : List MValue) : List MValue → Option (MValue × MState)
  | [] =>
    match asInts l with
    | none => none
    | some ns => some (.arrayRef r, heapSet s r ((sortInts ns).map .vint))
  | _ :: _ => none

/-- Managed `Array#rotate!`: cyclic in-place shift, returning the array. -/
def m_rotate_bang (s : MState) (r : Nat) (l : List MValue) : List MValue → Option (MValue × MState)
  | [.vint n] => some (.arrayRef r, heapSet s r (rotateList l n))
  | _ => none

/-- Modelled from the spec: the managed runtime's method dispatch (the
Invocation Dispatcher's target).  Resolves an operation name against the
receiver's dynamic type, runs it, and returns the raw managed result with
the updated state; `none` models a raised managed exception.  Each
dispatch counts one managed-side invocation. -/
def m_invoke (s₀ : MState) (recv : MValue) (op : String) (args : List MValue) :
    Option (MValue × MState) :=
  let s := tick s₀
  match recv with
  | .arrayRef r =>
    match heapGet s r with
    | none => none
    | some l =>
      if op = "push" then m_push s r l args
      else if op = "pop" then m_pop s r l args
      else if op = "shift" then m_shift s r l args
      else if op = "unshift" then m_unshift s r l args
      else if op = "[]" then m_aref s r l args
      else if op = "[]=" then m_aset s r l args
      else if op = "delete" then m_delete s r l args
      else if op = "delete_at" then m_delete_at s r l args
      else if op = "clear" then m_clear s r l args
      else if op = "concat" then m_concat s r l args
      else if op = "reverse!" then m_reverse_bang s r l args
      else if op = "sort!" then m_sort_bang s r l args
      else if op = "rotate!" then m_rotate_bang s r l args
      else none
  | _ => none

/-- Unwrap a list of argument handles, failing if any is malformed. -/
def unwrapList (s : MState) : List Handle → Option (List MValue)
  | [] => some []
  | h :: t =>
    match rb_tr_unwrap s h with
    | none => none
    | some v =>
      match unwrapList s t with
      | none => none
      | some vs => some (v :: vs)

/-- Modelled from the spec: the `RUBY_INVOKE_NO_WRAP` macro — unwrap the
receiver and arguments, dispatch the named operation, return the raw
managed result. -/
def RUBY_INVOKE_NO_WRAP (s : MState) (recv : Handle) (op : String)
    (args : List Handle) : Option (MValue × MState) :=
  match rb_tr_unwrap s recv with
  | none => none
  | some rv =>
    match unwrapList s args with
    | none => none
    | some avs => m_invoke s rv op avs

/-- Modelled from the spec: the `RUBY_INVOKE` macro — like
`RUBY_INVOKE_NO_WRAP` but wraps the result into a handle. -/
def RUBY_INVOKE (s : MState) (recv : Handle) (op : String)
    (args : List Handle) : Option (Handle × MState) :=
  match RUBY_INVOKE_NO_WRAP s recv op args with
  | none => none
  | some (v, s') => some (rb_tr_wrap s' v)

/-- `polyglot_invoke(rb_tr_unwrap(h), op, raw args)` followed by
`rb_tr_wrap`: the pattern used by the C functions that pass raw `long`
arguments instead of handles. -/
def polyglot_invoke_wrap (s : MState) (recv : Handle) (op : String)
    (args : List MValue) : Option (Handle × MState) :=
  match rb_tr_unwrap s recv with
  | none => none
  | some rv =>
    match m_invoke s rv op args with
    | none => none
    | some (v, s') => some (rb_tr_wrap s' v)

/-! ## The Array API surface, embedded from `array.c` -/

/-- `rb_ary_new_capa`: one managed invocation allocating a new empty
array, wrapped into a handle. -/
def rb_ary_new_capa (s₀ : MState) (_capacity : Int) : Handle × MState :=
  let s := tick s₀
  let (r, s) := heapAlloc s []
  rb_tr_wrap s (.arrayRef r)

/-- `rb_ary_new`: one managed invocation allocating a new empty array. -/
def rb_ary_new (s₀ : MState) : Handle × MState :=
  let s := tick s₀
  let (r, s) := heapAlloc s []
  rb_tr_wrap s (.arrayRef r)

/-- `rb_ary_store`: `RUBY_INVOKE_NO_WRAP(array, "[]=", LONG2FIX(index), value)`,
result discarded (the C function returns `void`). -/
def rb_ary_store (s : MState) (array : Handle) (index : Int) (value : Handle) :
    Option MState :=
  match RUBY_INVOKE_NO_WRAP s array "[]=" [.imm (.vint index), value] with
  | none => none
  | some (_, s') => some s'

/-- The `for (int i = 0; i < n; i++) rb_ary_store(array, i, ...)` loop
shared by `rb_ary_new_from_args` and `rb_ary_new_from_values`, storing each
remaining value at consecutive indices starting from `i`. -/
def storeLoop (s : MState) (array : Handle) (values : List Handle) (i : Int) :
    Option MState :=
  match values with
  | [] => some s
  | v :: rest =>
    match rb_ary_store s array i v with
    | none => none
    | some s' => storeLoop s' array rest (i + 1)

/-- `rb_ary_new_from_args(n, ...)`: `rb_ary_new_capa(n)` then one
`rb_ary_store` per variadic argument. -/
def rb_ary_new_from_args (s : MState) (n : Nat) (args : List Handle) :
    Option (Handle × MState) :=
  let (array, s) := rb_ary_new_capa s n
  match storeLoop s array (args.take n) 0 with
  | none => none
  | some s' => some (array, s')

/-- `rb_ary_new_from_values(n, values)`: `rb_ary_new_capa(n)` then one
`rb_ary_store` per element of `values`. -/
def rb_ary_new_from_values (s : MState) (n : Nat) (values : List Handle) :
    Option (Handle × MState) :=
  let (array, s) := rb_ary_new_capa s n
  match storeLoop s array (values.take n) 0 with
  | none => none
  | some s' => some (array, s')

/-- `rb_ary_push`: `RUBY_INVOKE_NO_WRAP(array, "push", value); return array;`. -/
def rb_ary_push (s : MState) (array value : Handle) : Option (Handle × MState) :=
  match RUBY_INVOKE_NO_WRAP s array "push" [value] with
  | none => none
  | some (_, s') => some (array, s')

/-- `rb_ary_pop`: `RUBY_INVOKE(array, "pop")`. -/
def rb_ary_pop (s : MState) (array : Handle) : Option (Handle × MState) :=
  RUBY_INVOKE s array "pop" []

/-- `rb_ary_sort_bang`: `RUBY_INVOKE(array, "sort!")`. -/
def rb_ary_sort_bang (s : MState) (array : Handle) : Option (Handle × MState) :=
  RUBY_INVOKE s array "sort!" []

/-- `rb_ary_entry`: `rb_tr_wrap(polyglot_invoke(rb_tr_unwrap(array), "[]", index))`
— the full `long` index is passed to the managed `[]`. -/
def rb_ary_entry (s : MState) (array : Handle) (index : Int) :
    Option (Handle × MState) :=
  polyglot_invoke_wrap s array "[]" [.vint index]

/-- `rb_ary_unshift`: `RUBY_INVOKE(array, "unshift", value)`. -/
def rb_ary_unshift (s : MState) (array value : Handle) : Option (Handle × MState) :=
  RUBY_INVOKE s array "unshift" [value]

/-- `rb_ary_clear`: `RUBY_INVOKE(array, "clear")`. -/
def rb_ary_clear (s : MState) (array : Handle) : Option (Handle × MState) :=
  RUBY_INVOKE s array "clear" []

/-- `rb_ary_delete`: `RUBY_INVOKE(array, "delete", value)`. -/
def rb_ary_delete (s : MState) (array value : Handle) : Option (Handle × MState) :=
  RUBY_INVOKE s array "delete" [value]

/-- `rb_ary_delete_at`: `rb_tr_wrap(polyglot_invoke(rb_tr_unwrap(array), "delete_at", n))`. -/
def rb_ary_delete_at (s : MState) (array : Handle) (n : Int) :
    Option (Handle × MState) :=
  polyglot_invoke_wrap s array "delete_at" [.vint n]

/-- `rb_ary_reverse`: `RUBY_INVOKE(array, "reverse!")`. -/
def rb_ary_reverse (s : MState) (array : Handle) : Option (Handle × MState) :=
  RUBY_INVOKE s array "reverse!" []

/-- `rb_ary_shift`: `RUBY_INVOKE(array, "shift")`. -/
def rb_ary_shift (s : MState) (array : Handle) : Option (Handle × MState) :=
  RUBY_INVOKE s array "shift" []

/-- `rb_ary_concat`: `RUBY_INVOKE(a, "concat", b)`. -/
def rb_ary_concat (s : MState) (a b : Handle) : Option (Handle × MState) :=
  RUBY_INVOKE s a "concat" [b]

/-- Modelled from the spec: `rb_check_array_type` (not in the given source)
returns its argument unchanged when it already refers to a managed array
(identity preserved) and the nil sentinel otherwise. -/
def rb_check_array_type (s : MState) (x : Handle) : Option (Handle × MState) :=
  match rb_tr_unwrap s x with
  | some (.arrayRef _) => some (x, s)
  | some _ => some (Qnil, s)
  | none => none

/-- `rb_ary_to_ary`: `rb_check_array_type`, returning its result unless it
is nil, in which case a new one-element array holding `array` is built via
`rb_ary_new_from_args(1, array)`. -/
def rb_ary_to_ary (s : MState) (array : Handle) : Option (Handle × MState) :=
  match rb_check_array_type s array with
  | none => none
  | some (tmp, s') =>
    if ¬ NIL_P tmp then some (tmp, s')
    else rb_ary_new_from_args s' 1 [array]

/-- `rb_ary_cat`: `RUBY_INVOKE(array, "concat", rb_ary_new4(n, cat))`
where `rb_ary_new4` is `rb_ary_new_from_values`. -/
def rb_ary_cat (s : MState) (array : Handle) (cat : List Handle) (n : Nat) :
    Option (Handle × MState) :=
  match rb_ary_new_from_values s n cat with
  | none => none
  | some (tmp, s') => RUBY_INVOKE s' array "concat" [tmp]

/-- `rb_ary_rotate`: dispatches `rotate!` for nonzero `n`; for `n == 0`
returns `Qnil` without invoking anything. -/
def rb_ary_rotate (s : MState) (array : Handle) (n : Int) :
    Option (Handle × MState) :=
  if n ≠ 0 then polyglot_invoke_wrap s array "rotate!" [.vint n]
  else some (Qnil, s)

/-- Two's-complement conversion of a 64-bit `long` to a 32-bit `int`, as
performed by the `(int) index` cast. -/
def toInt32 (i : Int) : Int := (i + 2 ^ 31) % 2 ^ 32 - 2 ^ 31

/-- Modelled from the spec: `polyglot_get_array_element` — a direct
interop element read at a nonnegative in-bounds position. -/
def polyglot_get_array_element (s : MState) (v : MValue) (i : Int) :
    Option MValue :=
  match v with
  | .arrayRef r =>
    match heapGet s r with
    | none => none
    | some l => if 0 ≤ i ∧ i < (l.length : Int) then some (l.getD i.toNat .vnil) else none
  | _ => none

/-- `RARRAY_AREF`: `rb_tr_wrap(polyglot_get_array_element(rb_tr_unwrap(array), (int) index))`
— note the index is cast to a 32-bit `int` before the read. -/
def RARRAY_AREF (s : MState) (array : Handle) (index : Int) :
    Option (Handle × MState) :=
  match rb_tr_unwrap s array with
  | none => none
  | some av =>
    match polyglot_get_array_element s av (toInt32 index) with
    | none => none
    | some v => some (rb_tr_wrap s v)

/-- One `rb_ary_push` per item, iterated: the per-item alternative that the
spec's "bulk variant avoids n separate dispatches" note compares against. -/
def pushLoop (s : MState) (a : Handle) : List Handle → Option (Handle × MState)
  | [] => some (a, s)
  | v :: rest =>
    match rb_ary_push s a v with
    | none => none
    | some (_, s') => pushLoop s' a rest

/-- Building an array of n items the per-item way: `rb_ary_new` followed by
one `rb_ary_push` per item. -/
def perItemBuild (s : MState) (values : List Handle) : Option (Handle × MState) :=
  let (a, s₁) := rb_ary_new s
  pushLoop s₁ a values

/-! ## Basic lemmas about the state and the handle table -/

@[simp] lemma tick_heap (s : MState) : (tick s).heap = s.heap := rfl

@[simp] lemma tick_table (s : MState) : (tick s).table = s.table := rfl

@[simp] lemma heapSet_table (s : MState) (r : Nat) (l : List MValue) :
    (heapSet s r l).table = s.table := rfl

@[simp] lemma heapGet_tick (s : MState) (r : Nat) :
    heapGet (tick s) r = heapGet s r := rfl

@[simp] lemma wrap_heap (s : MState) (v : MValue) :
    (rb_tr_wrap s v).2.heap = s.heap := by
  unfold rb_tr_wrap; split <;> rfl

lemma unwrap_congr_table {s s' : MState} (h : s'.table = s.table) (x : Handle) :
    rb_tr_unwrap s' x = rb_tr_unwrap s x := by
  cases x <;> simp [rb_tr_unwrap, h]

@[simp] lemma unwrap_tick (s : MState) (x : Handle) :
    rb_tr_unwrap (tick s) x = rb_tr_unwrap s x :=
  unwrap_congr_table rfl x

@[simp] lemma unwrap_heapSet (s : MState) (r : Nat) (l : List MValue) (x : Handle) :
    rb_tr_unwrap (heapSet s r l) x = rb_tr_unwrap s x :=
  unwrap_congr_table rfl x

lemma heapGet_congr_heap {s s' : MState} (h : s'.heap = s.heap) (r : Nat) :
    heapGet s' r = heapGet s r := by
  simp [heapGet, h]

@[simp] lemma heapGet_wrap (s : MState) (v : MValue) (r : Nat) :
    heapGet (rb_tr_wrap s v).2 r = heapGet s r :=
  heapGet_congr_heap (wrap_heap s v) r

lemma heapGet_heapSet_self {s : MState} {r : Nat} {l₀ : List MValue}
    (h : heapGet s r = some l₀) (l : List MValue) :
    heapGet (heapSet s r l) r = some l := by
  unfold heapGet at h ⊢
  unfold heapSet
  have hr : r < s.heap.length := by
    by_contra hge
    rw [List.get?_eq_none.mpr (Nat.le_of_not_lt hge)] at h
    exact Option.noConfusion h
  simpa using List.get?_set_eq_of_lt l hr

lemma heapGet_heapSet_ne (s : MState) {r r' : Nat} (h : r ≠ r') (l : List MValue) :
    heapGet (heapSet s r l) r' = heapGet s r' := by
  unfold heapGet heapSet
  simpa using List.get?_set_ne l s.heap h

/-- Wrapping always yields a handle that unwraps to the wrapped value. -/
lemma wrap_unwrap (s : MState) (v : MValue) :
    rb_tr_unwrap (rb_tr_wrap s v).2 (rb_tr_wrap s v).1 = some v := by
  unfold rb_tr_wrap rb_tr_unwrap
  by_cases h : isTaggedImmediate v = true
  · simp [h]
  · simp only [h, Bool.false_eq_true, if_false]
    exact List.get?_concat_length s.table v

/-- Wrapping a fresh value leaves every previously valid handle valid, with
the same referenced value. -/
lemma wrap_preserves_unwrap (s : MState) (v w : MValue) (x : Handle)
    (h : rb_tr_unwrap s x = some w) :
    rb_tr_unwrap (rb_tr_wrap s v).2 x = some w := by
  unfold rb_tr_wrap
  by_cases hi : isTaggedImmediate v = true
  · simpa [hi] using h
  · simp only [hi, Bool.false_eq_true, if_false]
    cases x with
    | imm u => simpa [rb_tr_unwrap] using h
    | href i =>
      simp only [rb_tr_unwrap] at h ⊢
      have hlt : i < s.table.length := by
        by_contra hge
        rw [List.get?_eq_none.mpr (Nat.le_of_not_lt hge)] at h
        exact Option.noConfusion h
      rw [List.get?_append hlt]
      exact h

/-- Extending the handle table preserves every previously valid handle. -/
lemma unwrap_table_extend {s s' : MState} {t : List MValue}
    (ht : s'.table = s.table ++ t) {x : Handle} {v : MValue}
    (hx : rb_tr_unwrap s x = some v) :
    rb_tr_unwrap s' x = some v := by
  cases x with
  | imm u => simpa [rb_tr_unwrap] using hx
  | href i =>
    simp only [rb_tr_unwrap] at hx ⊢
    have hlt : i < s.table.length := by
      by_contra hge
      rw [List.get?_eq_none.mpr (Nat.le_of_not_lt hge)] at hx
      exact Option.noConfusion hx
    rw [ht, List.get?_append hlt]
    exact hx

lemma unwrapList_congr_table {s s' : MState} (h : s'.table = s.table)
    (args : List Handle) :
    unwrapList s' args = unwrapList s args := by
  induction args with
  | nil => rfl
  | cons a t ih => simp only [unwrapList, unwrap_congr_table h, ih]

lemma unwrapList_table_extend {s s' : MState} {t : List MValue}
    (ht : s'.table = s.table ++ t) :
    ∀ {args : List Handle} {vs : List MValue},
      unwrapList s args = some vs → unwrapList s' args = some vs := by
  intro args
  induction args with
  | nil => intro vs h; simpa [unwrapList] using h
  | cons a rest ih =>
    intro vs h
    simp only [unwrapList] at h ⊢
    cases hx : rb_tr_unwrap s a with
    | none => rw [hx] at h; exact Option.noConfusion h
    | some v =>
      rw [hx] at h
      cases hrest : unwrapList s rest with
      | none => rw [hrest] at h; exact Option.noConfusion h
      | some vs' =>
        rw [hrest] at h
        rw [unwrap_table_extend ht hx, ih hrest]
        exact h

lemma unwrapList_length {s : MState} :
    ∀ {args : List Handle} {vs : List MValue},
      unwrapList s args = some vs → vs.length = args.length := by
  intro args
  induction args with
  | nil =>
    intro vs h
    injection h with h
    subst h
    rfl
  | cons a rest ih =>
    intro vs h
    simp only [unwrapList] at h
    cases hx : rb_tr_unwrap s a with
    | none => rw [hx] at h; exact Option.noConfusion h
    | some v =>
      rw [hx] at h
      cases hrest : unwrapList s rest with
      | none => rw [hrest] at h; exact Option.noConfusion h
      | some vs' =>
        rw [hrest] at h
        cases h
        simpa using ih hrest

lemma unwrapList_get? {s : MState} :
    ∀ {args : List Handle} {vs : List MValue},
      unwrapList s args = some vs →
      ∀ i, vs.get? i = (args.get? i).bind (rb_tr_unwrap s) := by
  intro args
  induction args with
  | nil =>
    intro vs h i
    injection h with h
    subst h
    simp
  | cons a rest ih =>
    intro vs h i
    simp only [unwrapList] at h
    cases hx : rb_tr_unwrap s a with
    | none => rw [hx] at h; exact Option.noConfusion h
    | some v =>
      rw [hx] at h
      cases hrest : unwrapList s rest with
      | none => rw [hrest] at h; exact Option.noConfusion h
      | some vs' =>
        rw [hrest] at h
        cases h
        cases i with
        | zero => simpa using hx.symm
        | succ j => simpa using ih hrest j

lemma deleteFirst_eq_none_of_not_mem {v : MValue} :
    ∀ {l : List MValue}, v ∉ l → deleteFirst l v = none := by
  intro l
  induction l with
  | nil => intro _; rfl
  | cons x t ih =>
    intro h
    have hx : ¬ x = v := fun he => h (he ▸ List.mem_cons_self x t)
    have ht : v ∉ t := fun hm => h (List.mem_cons_of_mem x hm)
    simp [deleteFirst, hx, ih ht]

lemma normIndex_eq_none {len : Nat} {i : Int}
    (h : i + len < 0 ∨ (len : Int) ≤ i) : normIndex len i = none := by
  unfold normIndex
  split_ifs <;> first | rfl | (exfalso; omega)

lemma normIndex_of_nonneg_lt {len : Nat} {i : Int} (h0 : 0 ≤ i)
    (hlt : i < (len : Int)) : normIndex len i = some i.toNat := by
  unfold normIndex
  split_ifs <;> first | rfl | (exfalso; omega)

lemma storeAt_append (l : List MValue) (x : MValue) :
    storeAt l (l.length : Int) x = some (l ++ [x]) := by
  unfold storeAt
  have h0 : ¬ ((l.length : Int) < 0) := by omega
  simp [h0, Int.toNat_natCast]

/-- A fresh allocation is invisible at every existing reference. -/
lemma heapGet_append_ne {s s' : MState} (l : List MValue)
    (hh : s'.heap = s.heap ++ [l]) {r : Nat} (h : r ≠ s.heap.length) :
    heapGet s' r = heapGet s r := by
  unfold heapGet
  rw [hh]
  rcases Nat.lt_or_ge r s.heap.length with hlt | hge
  · simpa using List.get?_append hlt
  · rw [List.get?_eq_none.mpr hge, List.get?_eq_none.mpr (by simp; omega)]

lemma heapGet_append_self {s s' : MState} (l : List MValue)
    (hh : s'.heap = s.heap ++ [l]) :
    heapGet s' s.heap.length = some l := by
  unfold heapGet
  rw [hh]
  exact List.get?_concat_length s.heap l

lemma heapGet_length_eq_none (s : MState) : heapGet s s.heap.length = none := by
  unfold heapGet
  exact List.get?_eq_none.mpr (Nat.le_refl _)

/-! ## Unfolding lemmas for the invocation macros -/

lemma RUBY_INVOKE_NO_WRAP_eq {s : MState} {a : Handle} {av : MValue}
    (op : String) {args : List Handle} {avs : List MValue}
    {res : Option (MValue × MState)}
    (ha : rb_tr_unwrap s a = some av) (hargs : unwrapList s args = some avs)
    (hm : m_invoke s av op avs = res) :
    RUBY_INVOKE_NO_WRAP s a op args = res := by
  simp [RUBY_INVOKE_NO_WRAP, ha, hargs, hm]

lemma RUBY_INVOKE_eq {s : MState} {a : Handle} {av : MValue}
    (op : String) {args : List Handle} {avs : List MValue}
    {v : MValue} {s' : MState}
    (ha : rb_tr_unwrap s a = some av) (hargs : unwrapList s args = some avs)
    (hm : m_invoke s av op avs = some (v, s')) :
    RUBY_INVOKE s a op args = some (rb_tr_wrap s' v) := by
  simp [RUBY_INVOKE, RUBY_INVOKE_NO_WRAP, ha, hargs, hm]

lemma polyglot_invoke_wrap_eq {s : MState} {a : Handle} {av : MValue}
    (op : String) {args : List MValue} {v : MValue} {s' : MState}
    (ha : rb_tr_unwrap s a = some av)
    (hm : m_invoke s av op args = some (v, s')) :
    polyglot_invoke_wrap s a op args = some (rb_tr_wrap s' v) := by
  simp [polyglot_invoke_wrap, ha, hm]

/-- Packaging of a wrapped result: the call returns some handle/state pair,
the handle unwraps to the managed result, and the final heap is the heap
the managed operation produced. -/
lemma wrap_result_spec {f : Option (Handle × MState)} {X : MState} {x : MValue}
    (hf : f = some (rb_tr_wrap X x)) :
    ∃ (h' : Handle) (s' : MState), f = some (h', s') ∧
      rb_tr_unwrap s' h' = some x ∧ s'.heap = X.heap ∧
      (∃ t, s'.table = X.table ++ t) := by
  refine ⟨(rb_tr_wrap X x).1, (rb_tr_wrap X x).2, by rw [hf], wrap_unwrap _ _,
    wrap_heap _ _, ?_⟩
  unfold rb_tr_wrap
  split
  · exact ⟨[], by simp⟩
  · exact ⟨[x], rfl⟩

/-! ## Dispatch lemmas for each managed operation -/

lemma m_invoke_push {s : MState} {r : Nat} {l : List MValue} (v : MValue)
    (hl : heapGet s r = some l) :
    m_invoke s (.arrayRef r) "push" [v] =
      some (.arrayRef r, heapSet (tick s) r (l ++ [v])) := by
  simp [m_invoke, hl, m_push]

lemma m_invoke_pop_empty {s : MState} {r : Nat}
    (hl : heapGet s r = some []) :
    m_invoke s (.arrayRef r) "pop" [] = some (.vnil, tick s) := by
  simp [m_invoke, hl, m_pop]

lemma m_invoke_pop_last {s : MState} {r : Nat} {l : List MValue} {x : MValue}
    (hl : heapGet s r = some l) (hx : l.getLast? = some x) :
    m_invoke s (.arrayRef r) "pop" [] =
      some (x, heapSet (tick s) r l.dropLast) := by
  simp [m_invoke, hl, m_pop, hx]

lemma m_invoke_shift_empty {s : MState} {r : Nat}
    (hl : heapGet s r = some []) :
    m_invoke s (.arrayRef r) "shift" [] = some (.vnil, tick s) := by
  simp [m_invoke, hl, m_shift]

lemma m_invoke_shift_cons {s : MState} {r : Nat} {x : MValue} {t : List MValue}
    (hl : heapGet s r = some (x :: t)) :
    m_invoke s (.arrayRef r) "shift" [] =
      some (x, heapSet (tick s) r t) := by
  simp [m_invoke, hl, m_shift]

lemma m_invoke_unshift {s : MState} {r : Nat} {l : List MValue} (v : MValue)
    (hl : heapGet s r = some l) :
    m_invoke s (.arrayRef r) "unshift" [v] =
      some (.arrayRef r, heapSet (tick s) r (v :: l)) := by
  simp [m_invoke, hl, m_unshift]

lemma m_invoke_aref_oor {s : MState} {r : Nat} {l : List MValue} {i : Int}
    (hl : heapGet s r = some l) (hi : normIndex l.length i = none) :
    m_invoke s (.arrayRef r) "[]" [.vint i] = some (.vnil, tick s) := by
  simp [m_invoke, hl, m_aref, hi]

lemma m_invoke_aref_hit {s : MState} {r : Nat} {l : List MValue} {i : Int} {j : Nat}
    (hl : heapGet s r = some l) (hi : normIndex l.length i = some j) :
    m_invoke s (.arrayRef r) "[]" [.vint i] = some (l.getD j .vnil, tick s) := by
  simp [m_invoke, hl, m_aref, hi]

lemma m_invoke_aset {s : MState} {r : Nat} {l l' : List MValue} {i : Int} {v : MValue}
    (hl : heapGet s r = some l) (hs : storeAt l i v = some l') :
    m_invoke s (.arrayRef r) "[]=" [.vint i, v] =
      some (v, heapSet (tick s) r l') := by
  simp [m_invoke, hl, m_aset, hs]

lemma m_invoke_delete_absent {s : MState} {r : Nat} {l : List MValue} {v : MValue}
    (hl : heapGet s r = some l) (hd : deleteFirst l v = none) :
    m_invoke s (.arrayRef r) "delete" [v] = some (.vnil, tick s) := by
  simp [m_invoke, hl, m_delete, hd]

lemma m_invoke_delete_found {s : MState} {r : Nat} {l l' : List MValue} {v : MValue}
    (hl : heapGet s r = some l) (hd : deleteFirst l v = some l') :
    m_invoke s (.arrayRef r) "delete" [v] =
      some (v, heapSet (tick s) r l') := by
  simp [m_invoke, hl, m_delete, hd]

lemma m_invoke_delete_at_hit {s : MState} {r : Nat} {l : List MValue} {i : Int} {j : Nat}
    (hl : heapGet s r = some l) (hi : normIndex l.length i = some j) :
    m_invoke s (.arrayRef r) "delete_at" [.vint i] =
      some (l.getD j .vnil, heapSet (tick s) r (l.eraseIdx j)) := by
  simp [m_invoke, hl, m_delete_at, hi]

lemma m_invoke_clear {s : MState} {r : Nat} {l : List MValue}
    (hl : heapGet s r = some l) :
    m_invoke s (.arrayRef r) "clear" [] =
      some (.arrayRef r, heapSet (tick s) r []) := by
  simp [m_invoke, hl, m_clear]

lemma m_invoke_concat {s : MState} {r r2 : Nat} {l l2 : List MValue}
    (hl : heapGet s r = some l) (hl2 : heapGet s r2 = some l2) :
    m_invoke s (.arrayRef r) "concat" [.arrayRef r2] =
      some (.arrayRef r, heapSet (tick s) r (l ++ l2)) := by
  simp [m_invoke, hl, m_concat, hl2]

lemma m_invoke_reverse {s : MState} {r : Nat} {l : List MValue}
    (hl : heapGet s r = some l) :
    m_invoke s (.arrayRef r) "reverse!" [] =
      some (.arrayRef r, heapSet (tick s) r l.reverse) := by
  simp [m_invoke, hl, m_reverse_bang]

lemma m_invoke_sort_bang {s : MState} {r : Nat} {l : List MValue} {ns : List Int}
    (hl : heapGet s r = some l) (hns : asInts l = some ns) :
    m_invoke s (.arrayRef r) "sort!" [] =
      some (.arrayRef r, heapSet (tick s) r ((sortInts ns).map .vint)) := by
  simp [m_invoke, hl, m_sort_bang, hns]

lemma m_invoke_rotate {s : MState} {r : Nat} {l : List MValue} (n : Int)
    (hl : heapGet s r = some l) :
    m_invoke s (.arrayRef r) "rotate!" [.vint n] =
      some (.arrayRef r, heapSet (tick s) r (rotateList l n)) := by
  simp [m_invoke, hl, m_rotate_bang]

/-! ## The construction loops -/

/-- Effect of the store loop: starting from an array currently holding `l`
and storing at consecutive indices from `l.length`, it appends the
unwrapped values, touches no other array, leaves the handle table alone,
and issues exactly one managed invocation per value. -/
lemma storeLoop_spec :
    ∀ (values : List Handle) (vs : List MValue) (s : MState) (a : Handle)
      (r : Nat) (l : List MValue),
      unwrapList s values = some vs →
      rb_tr_unwrap s a = some (.arrayRef r) →
      heapGet s r = some l →
      ∃ s' : MState, storeLoop s a values (l.length : Int) = some s' ∧
        heapGet s' r = some (l ++ vs) ∧
        s'.table = s.table ∧
        (∀ r₂, r₂ ≠ r → heapGet s' r₂ = heapGet s r₂) ∧
        s'.dispatches = s.dispatches + values.length := by
  intro values
  induction values with
  | nil =>
    intro vs s a r l hvs ha hl
    injection hvs with hvs
    subst hvs
    exact ⟨s, rfl, by simpa using hl, rfl, fun _ _ => rfl, rfl⟩
  | cons v rest ih =>
    intro vs s a r l hvs ha hl
    simp only [unwrapList] at hvs
    cases hx : rb_tr_unwrap s v with
    | none => rw [hx] at hvs; exact Option.noConfusion hvs
    | some x =>
      rw [hx] at hvs
      cases hrest : unwrapList s rest with
      | none => rw [hrest] at hvs; exact Option.noConfusion hvs
      | some xs =>
        rw [hrest] at hvs
        cases hvs
        have himm : rb_tr_unwrap s (.imm (.vint (l.length : Int))) =
            some (.vint (l.length : Int)) := rfl
        have hargs : unwrapList s [.imm (.vint (l.length : Int)), v] =
            some [.vint (l.length : Int), x] := by
          simp only [unwrapList, himm, hx]
        have hstore : rb_ary_store s a (l.length : Int) v =
            some (heapSet (tick s) r (l ++ [x])) := by
          rw [rb_ary_store,
            RUBY_INVOKE_NO_WRAP_eq "[]=" ha hargs
              (m_invoke_aset hl (storeAt_append l x))]
        have htab : (heapSet (tick s) r (l ++ [x])).table = s.table := rfl
        have hrest' : unwrapList (heapSet (tick s) r (l ++ [x])) rest = some xs := by
          rw [unwrapList_congr_table htab]
          exact hrest
        have ha' : rb_tr_unwrap (heapSet (tick s) r (l ++ [x])) a =
            some (.arrayRef r) := by
          rw [unwrap_congr_table htab]
          exact ha
        have hl' : heapGet (heapSet (tick s) r (l ++ [x])) r = some (l ++ [x]) :=
          heapGet_heapSet_self ((heapGet_tick s r).trans hl) _
        obtain ⟨s₂, hloop, hheap, htab₂, hother, hdisp⟩ :=
          ih xs (heapSet (tick s) r (l ++ [x])) a r (l ++ [x]) hrest' ha' hl'
        have hlen : ((l ++ [x]).length : Int) = (l.length : Int) + 1 := by
          simp
        refine ⟨s₂, ?_, ?_, ?_, ?_, ?_⟩
        · rw [storeLoop, hstore, ← hlen]
          exact hloop
        · rw [hheap]
          simp
        · rw [htab₂]
          exact htab
        · intro r₂ hr₂
          rw [hother r₂ hr₂, heapGet_heapSet_ne _ (fun h => hr₂ h.symm),
            heapGet_tick]
        · rw [hdisp]
          simp [tick, heapSet]
          omega

/-- Effect of the push loop: appends the unwrapped values one managed
invocation at a time and returns the array handle it was given. -/
lemma pushLoop_spec :
    ∀ (values : List Handle) (vs : List MValue) (s : MState) (a : Handle)
      (r : Nat) (l : List MValue),
      unwrapList s values = some vs →
      rb_tr_unwrap s a = some (.arrayRef r) →
      heapGet s r = some l →
      ∃ s' : MState, pushLoop s a values = some (a, s') ∧
        heapGet s' r = some (l ++ vs) ∧
        s'.table = s.table ∧
        s'.dispatches = s.dispatches + values.length := by
  intro values
  induction values with
  | nil =>
    intro vs s a r l hvs ha hl
    injection hvs with hvs
    subst hvs
    exact ⟨s, rfl, by simpa using hl, rfl, rfl⟩
  | cons v rest ih =>
    intro vs s a r l hvs ha hl
    simp only [unwrapList] at hvs
    cases hx : rb_tr_unwrap s v with
    | none => rw [hx] at hvs; exact Option.noConfusion hvs
    | some x =>
      rw [hx] at hvs
      cases hrest : unwrapList s rest with
      | none => rw [hrest] at hvs; exact Option.noConfusion hvs
      | some xs =>
        rw [hrest] at hvs
        cases hvs
        have hargs : unwrapList s [v] = some [x] := by
          simp [unwrapList, hx]
        have hpush : rb_ary_push s a v =
            some (a, heapSet (tick s) r (l ++ [x])) := by
          rw [rb_ary_push,
            RUBY_INVOKE_NO_WRAP_eq "push" ha hargs (m_invoke_push x hl)]
        have htab : (heapSet (tick s) r (l ++ [x])).table = s.table := rfl
        have hrest' : unwrapList (heapSet (tick s) r (l ++ [x])) rest = some xs := by
          rw [unwrapList_congr_table htab]
          exact hrest
        have ha' : rb_tr_unwrap (heapSet (tick s) r (l ++ [x])) a =
            some (.arrayRef r) := by
          rw [unwrap_congr_table htab]
          exact ha
        have hl' : heapGet (heapSet (tick s) r (l ++ [x])) r = some (l ++ [x]) :=
          heapGet_heapSet_self ((heapGet_tick s r).trans hl) _
        obtain ⟨s₂, hloop, hheap, htab₂, hdisp⟩ :=
          ih xs (heapSet (tick s) r (l ++ [x])) a r (l ++ [x]) hrest' ha' hl'
        refine ⟨s₂, ?_, ?_, ?_, ?_⟩
        · rw [pushLoop, hpush]
          exact hloop
        · rw [hheap]
          simp
        · rw [htab₂]
          exact htab
        · rw [hdisp]
          simp [tick, heapSet]
          omega

/-- Effect of `rb_ary_new_capa`: allocates a fresh empty array at the next
heap slot, hands back a reference handle to it, and issues exactly one
managed invocation. -/
lemma rb_ary_new_capa_spec (s : MState) (n : Int) :
    rb_ary_new_capa s n =
      (.href s.table.length,
       ⟨s.heap ++ [[]], s.table ++ [.arrayRef s.heap.length],
        s.dispatches + 1⟩) := by
  rfl

/-- Effect of `rb_ary_new_from_values` called with `n` equal to the number
of values: a fresh array holding the unwrapped values in order, every
pre-existing array untouched, and `1 + n` managed invocations issued. -/
lemma new_from_values_spec (s : MState) (values : List Handle) (vs : List MValue)
    (hvs : unwrapList s values = some vs) :
    ∃ (a : Handle) (s' : MState),
      rb_ary_new_from_values s values.length values = some (a, s') ∧
      rb_tr_unwrap s' a = some (.arrayRef s.heap.length) ∧
      heapGet s s.heap.length = none ∧
      heapGet s' s.heap.length = some vs ∧
      s'.table = s.table ++ [.arrayRef s.heap.length] ∧
      (∀ r₂, r₂ ≠ s.heap.length → heapGet s' r₂ = heapGet s r₂) ∧
      s'.dispatches = s.dispatches + 1 + values.length := by
  set R := s.heap.length with hR
  set s₂ : MState :=
    ⟨s.heap ++ [[]], s.table ++ [.arrayRef R], s.dispatches + 1⟩ with hs₂
  set A : Handle := .href s.table.length with hA
  have hvs₂ : unwrapList s₂ values = some vs :=
    unwrapList_table_extend (t := [.arrayRef R]) rfl hvs
  have ha₂ : rb_tr_unwrap s₂ A = some (.arrayRef R) := by
    simp only [rb_tr_unwrap, hs₂, hA]
    exact List.get?_concat_length s.table _
  have hl₂ : heapGet s₂ R = some [] := heapGet_append_self (s := s) [] rfl
  obtain ⟨s', hloop, hheap, htab, hother, hdisp⟩ :=
    storeLoop_spec values vs s₂ A R [] hvs₂ ha₂ hl₂
  refine ⟨A, s', ?_, ?_, ?_, ?_, ?_, ?_, ?_⟩
  · rw [rb_ary_new_from_values, rb_ary_new_capa_spec, List.take_length]
    rw [← hs₂, ← hA]
    have h0 : ((([] : List MValue)).length : Int) = 0 := rfl
    rw [← h0]
    simp only [hloop]
  · rw [unwrap_congr_table htab]
    exact ha₂
  · exact heapGet_length_eq_none s
  · simpa using hheap
  · rw [htab]
  · intro r₂ hr₂
    rw [hother r₂ hr₂, heapGet_append_ne (s := s) [] rfl hr₂]
  · rw [hdisp]

/-- `rb_ary_new_from_args` and `rb_ary_new_from_values` have the same
behaviour. -/
lemma new_from_args_eq_values :
    rb_ary_new_from_args = rb_ary_new_from_values := rfl

/-- Effect of `perItemBuild`: the same array contents — and the same
`1 + n` managed invocations — as the bulk constructor. -/
lemma perItemBuild_spec (s : MState) (values : List Handle) (vs : List MValue)
    (hvs : unwrapList s values = some vs) :
    ∃ (b : Handle) (s' : MState),
      perItemBuild s values = some (b, s') ∧
      rb_tr_unwrap s' b = some (.arrayRef s.heap.length) ∧
      heapGet s' s.heap.length = some vs ∧
      s'.dispatches = s.dispatches + 1 + values.length := by
  set R := s.heap.length with hR
  set s₂ : MState :=
    ⟨s.heap ++ [[]], s.table ++ [.arrayRef R], s.dispatches + 1⟩ with hs₂
  set A : Handle := .href s.table.length with hA
  have hvs₂ : unwrapList s₂ values = some vs :=
    unwrapList_table_extend (t := [.arrayRef R]) rfl hvs
  have ha₂ : rb_tr_unwrap s₂ A = some (.arrayRef R) := by
    simp only [rb_tr_unwrap, hs₂, hA]
    exact List.get?_concat_length s.table _
  have hl₂ : heapGet s₂ R = some [] := heapGet_append_self (s := s) [] rfl
  obtain ⟨s', hloop, hheap, htab, hdisp⟩ :=
    pushLoop_spec values vs s₂ A R [] hvs₂ ha₂ hl₂
  refine ⟨A, s', ?_, ?_, ?_, ?_⟩
  · rw [perItemBuild]
    show pushLoop s₂ A values = some (A, s')
    exact hloop
  · rw [unwrap_congr_table htab]
    exact ha₂
  · simpa using hheap
  · rw [hdisp]

lemma heapGet_lt {s : MState} {r : Nat} {l : List MValue}
    (h : heapGet s r = some l) : r < s.heap.length := by
  by_contra hge
  unfold heapGet at h
  rw [List.get?_eq_none.mpr (Nat.le_of_not_lt hge)] at h
  exact Option.noConfusion h

/-- The common shape of an in-place operation: the call produced a wrapped
result over a state whose heap entry at `r` was overwritten with `newl`. -/
lemma invoke_wrap_inplace {f : Option (Handle × MState)} {s : MState} {r : Nat}
    {l newl : List MValue} {res : MValue}
    (hf : f = some (rb_tr_wrap (heapSet (tick s) r newl) res))
    (hl : heapGet s r = some l) :
    ∃ (h' : Handle) (s' : MState), f = some (h', s') ∧
      rb_tr_unwrap s' h' = some res ∧ heapGet s' r = some newl := by
  obtain ⟨h', s', hf', hu, hh, _⟩ := wrap_result_spec hf
  refine ⟨h', s', hf', hu, ?_⟩
  rw [heapGet_congr_heap hh]
  exact heapGet_heapSet_self ((heapGet_tick s r).trans hl) _

/-- `toInt32` always lands in the 32-bit two's-complement range. -/
lemma toInt32_bounds (i : Int) :
    -(2 ^ 31) ≤ toInt32 i ∧ toInt32 i < 2 ^ 31 := by
  unfold toInt32
  have h1 : 0 ≤ (i + 2 ^ 31) % 2 ^ 32 := Int.emod_nonneg _ (by norm_num)
  have h2 : (i + 2 ^ 31) % 2 ^ 32 < 2 ^ 32 :=
    Int.emod_lt_of_pos _ (by norm_num)
  omega

/-- `toInt32` is the identity exactly on the representable range. -/
lemma toInt32_eq_self {i : Int} (h1 : -(2 ^ 31) ≤ i) (h2 : i < 2 ^ 31) :
    toInt32 i = i := by
  unfold toInt32
  rw [Int.emod_eq_of_lt (by omega) (by omega)]
  omega

lemma toInt32_idem (i : Int) : toInt32 (toInt32 i) = toInt32 i :=
  toInt32_eq_self (toInt32_bounds i).1 (toInt32_bounds i).2

lemma length_eraseIdx_of_lt {α : Type} {l : List α} {j : Nat}
    (h : j < l.length) : (l.eraseIdx j).length = l.length - 1 := by
  have := List.length_eraseIdx_add_one h
  omega

/-- Removing the element at index `j` shifts every later element down by
one position. -/
lemma get?_eraseIdx_of_gt {α : Type} (l : List α) (j k : Nat) (hjk : j < k)
    (hk : k < l.length) : (l.eraseIdx j).get? (k - 1) = l.get? k := by
  rw [List.eraseIdx_eq_take_drop_succ]
  have hjl : j ≤ l.length := Nat.le_of_lt (Nat.lt_trans hjk hk)
  have htake : (l.take j).length = j := by
    rw [List.length_take]
    omega
  rw [List.get?_append_right (by omega : (l.take j).length ≤ k - 1), htake,
    List.get?_drop]
  congr 1
  omega

/-! ## The claims -/

/-- C1: `rotate(a, 0)` performs no mutation and returns the nil sentinel
rather than `a`; for nonzero `n`, `rotate(a, n)` cyclically shifts the
array in place (e.g. `[1,2,3,4]` rotated by 1 becomes `[2,3,4,1]`) and
returns a handle referring to the same array. -/
theorem rotate_zero_nil_else_rotates_in_place :
    (∀ (s : MState) (a : Handle), rb_ary_rotate s a 0 = some (Qnil, s)) ∧
    (∀ (s : MState) (a : Handle) (n : Int) (r : Nat) (l : List MValue),
      n ≠ 0 → rb_tr_unwrap s a = some (.arrayRef r) → heapGet s r = some l →
      ∃ (h' : Handle) (s' : MState),
        rb_ary_rotate s a n = some (h', s') ∧
        rb_tr_unwrap s' h' = some (.arrayRef r) ∧
        heapGet s' r = some (rotateList l n)) := by
  constructor
  · intro s a
    simp [rb_ary_rotate]
  · intro s a n r l hn ha hl
    have hrot : rb_ary_rotate s a n =
        some (rb_tr_wrap (heapSet (tick s) r (rotateList l n)) (.arrayRef r)) := by
      rw [rb_ary_rotate, if_pos hn,
        polyglot_invoke_wrap_eq "rotate!" ha (m_invoke_rotate n hl)]
    obtain ⟨h', s', hf, hu, hh, _⟩ := wrap_result_spec hrot
    refine ⟨h', s', hf, hu, ?_⟩
    rw [heapGet_congr_heap hh]
    exact heapGet_heapSet_self ((heapGet_tick s r).trans hl) _

/-- Witness for C1: rotating `[1,2,3,4]` by 1 in a concrete state yields
`[2,3,4,1]` in place, with a handle to the same array returned. -/
theorem rotate_zero_nil_else_rotates_in_place_witness :
    (∃ (h' : Handle) (s' : MState),
      rb_ary_rotate ⟨[[.vint 1, .vint 2, .vint 3, .vint 4]], [.arrayRef 0], 0⟩
          (.href 0) 1 = some (h', s') ∧
      rb_tr_unwrap s' h' = some (.arrayRef 0) ∧
      heapGet s' 0 = some (rotateList [.vint 1, .vint 2, .vint 3, .vint 4] 1)) ∧
    rotateList [.vint 1, .vint 2, .vint 3, .vint 4] 1 =
      [.vint 2, .vint 3, .vint 4, .vint 1] :=
  ⟨rotate_zero_nil_else_rotates_in_place.2 _ _ 1 0
      [.vint 1, .vint 2, .vint 3, .vint 4] (by decide) (by decide) (by decide),
   by decide⟩

/-- C3: wrapping the value obtained by unwrapping a valid handle yields a
handle that refers to the same managed value (and the original handle
stays valid); the two handles need not be bit-identical — witnessed by a
reference handle that wraps to a fresh table slot — while for tagged
immediates handle equality implies value equality. -/
theorem wrap_unwrap_roundtrip_observational :
    (∀ (s : MState) (h : Handle) (v : MValue), rb_tr_unwrap s h = some v →
      rb_tr_unwrap (rb_tr_wrap s v).2 (rb_tr_wrap s v).1 = some v ∧
      rb_tr_unwrap (rb_tr_wrap s v).2 h = some v) ∧
    (∃ (s : MState) (h : Handle) (v : MValue),
      rb_tr_unwrap s h = some v ∧ (rb_tr_wrap s v).1 ≠ h) ∧
    (∀ (v w : MValue), Handle.imm v = Handle.imm w → v = w) := by
  refine ⟨?_, ?_, ?_⟩
  · intro s h v hv
    exact ⟨wrap_unwrap s v, wrap_preserves_unwrap s v v h hv⟩
  · exact ⟨⟨[[]], [.arrayRef 0], 0⟩, .href 0, .arrayRef 0, by decide, by decide⟩
  · intro v w h
    injection h

/-- Witness for C3: round-tripping a concrete reference handle through
`unwrap` then `wrap` yields a handle referring to the same array. -/
theorem wrap_unwrap_roundtrip_observational_witness :
    rb_tr_unwrap (rb_tr_wrap ⟨[[]], [.arrayRef 0], 0⟩ (.arrayRef 0)).2
        (rb_tr_wrap ⟨[[]], [.arrayRef 0], 0⟩ (.arrayRef 0)).1 =
      some (.arrayRef 0) ∧
    rb_tr_unwrap (rb_tr_wrap ⟨[[]], [.arrayRef 0], 0⟩ (.arrayRef 0)).2 (.href 0) =
      some (.arrayRef 0) :=
  wrap_unwrap_roundtrip_observational.1 ⟨[[]], [.arrayRef 0], 0⟩ (.href 0)
    (.arrayRef 0) (by decide)

/-- C4: the absence conditions — `pop`/`shift` on an empty array, `delete`
of a value no element equals, and `entry` at an out-of-range index — all
return the nil sentinel (and succeed rather than raising). -/
theorem absence_conditions_return_nil_sentinel :
    (∀ (s : MState) (a : Handle) (r : Nat),
      rb_tr_unwrap s a = some (.arrayRef r) → heapGet s r = some [] →
      rb_ary_pop s a = some (Qnil, tick s)) ∧
    (∀ (s : MState) (a : Handle) (r : Nat),
      rb_tr_unwrap s a = some (.arrayRef r) → heapGet s r = some [] →
      rb_ary_shift s a = some (Qnil, tick s)) ∧
    (∀ (s : MState) (a v : Handle) (r : Nat) (l : List MValue) (x : MValue),
      rb_tr_unwrap s a = some (.arrayRef r) → heapGet s r = some l →
      rb_tr_unwrap s v = some x → x ∉ l →
      rb_ary_delete s a v = some (Qnil, tick s)) ∧
    (∀ (s : MState) (a : Handle) (r : Nat) (l : List MValue) (i : Int),
      rb_tr_unwrap s a = some (.arrayRef r) → heapGet s r = some l →
      (i + l.length < 0 ∨ (l.length : Int) ≤ i) →
      rb_ary_entry s a i = some (Qnil, tick s)) := by
  refine ⟨?_, ?_, ?_, ?_⟩
  · intro s a r ha hl
    rw [rb_ary_pop,
      RUBY_INVOKE_eq "pop" ha (show unwrapList s [] = some [] from rfl)
        (m_invoke_pop_empty hl)]
    rfl
  · intro s a r ha hl
    rw [rb_ary_shift,
      RUBY_INVOKE_eq "shift" ha (show unwrapList s [] = some [] from rfl)
        (m_invoke_shift_empty hl)]
    rfl
  · intro s a v r l x ha hl hv hx
    rw [rb_ary_delete,
      RUBY_INVOKE_eq "delete" ha (by simp [unwrapList, hv])
        (m_invoke_delete_absent hl (deleteFirst_eq_none_of_not_mem hx))]
    rfl
  · intro s a r l i ha hl hoor
    rw [rb_ary_entry,
      polyglot_invoke_wrap_eq "[]" ha (m_invoke_aref_oor hl (normIndex_eq_none hoor))]
    rfl

/-- Witness for C4: concrete absence cases all return the nil sentinel. -/
theorem absence_conditions_return_nil_sentinel_witness :
    rb_ary_pop ⟨[[]], [.arrayRef 0], 0⟩ (.href 0) =
      some (Qnil, tick ⟨[[]], [.arrayRef 0], 0⟩) ∧
    rb_ary_shift ⟨[[]], [.arrayRef 0], 0⟩ (.href 0) =
      some (Qnil, tick ⟨[[]], [.arrayRef 0], 0⟩) ∧
    rb_ary_delete ⟨[[.vint 1]], [.arrayRef 0], 0⟩ (.href 0) (.imm (.vint 2)) =
      some (Qnil, tick ⟨[[.vint 1]], [.arrayRef 0], 0⟩) ∧
    rb_ary_entry ⟨[[.vint 1]], [.arrayRef 0], 0⟩ (.href 0) 5 =
      some (Qnil, tick ⟨[[.vint 1]], [.arrayRef 0], 0⟩) :=
  ⟨absence_conditions_return_nil_sentinel.1 _ _ 0 (by decide) (by decide),
   absence_conditions_return_nil_sentinel.2.1 _ _ 0 (by decide) (by decide),
   absence_conditions_return_nil_sentinel.2.2.1 _ _ _ 0 [.vint 1] (.vint 2)
     (by decide) (by decide) (by decide) (by decide),
   absence_conditions_return_nil_sentinel.2.2.2 _ _ 0 [.vint 1] 5
     (by decide) (by decide) (by decide)⟩

/-- C5: `concat(a, b)` mutates `a` in place: the result holds `a`'s
elements followed by `b`'s, its length is the sum of the lengths, and the
returned handle refers to the same array as `a`. -/
theorem concat_appends_in_place_returns_self :
    ∀ (s : MState) (a b : Handle) (ra rb : Nat) (la lb : List MValue),
      rb_tr_unwrap s a = some (.arrayRef ra) →
      rb_tr_unwrap s b = some (.arrayRef rb) →
      heapGet s ra = some la → heapGet s rb = some lb →
      ∃ (h' : Handle) (s' : MState),
        rb_ary_concat s a b = some (h', s') ∧
        rb_tr_unwrap s' h' = some (.arrayRef ra) ∧
        heapGet s' ra = some (la ++ lb) ∧
        (la ++ lb).length = la.length + lb.length := by
  intro s a b ra rb la lb ha hb hla hlb
  have hcall : rb_ary_concat s a b =
      some (rb_tr_wrap (heapSet (tick s) ra (la ++ lb)) (.arrayRef ra)) := by
    rw [rb_ary_concat,
      RUBY_INVOKE_eq "concat" ha (by simp [unwrapList, hb])
        (m_invoke_concat hla hlb)]
  obtain ⟨h', s', hf, hu, hh, _⟩ := wrap_result_spec hcall
  refine ⟨h', s', hf, hu, ?_, by simp⟩
  rw [heapGet_congr_heap hh]
  exact heapGet_heapSet_self ((heapGet_tick s ra).trans hla) _

/-- Witness for C5: concatenating `[1] ++ [2,3]` in a concrete state. -/
theorem concat_appends_in_place_returns_self_witness :
    ∃ (h' : Handle) (s' : MState),
      rb_ary_concat ⟨[[.vint 1], [.vint 2, .vint 3]], [.arrayRef 0, .arrayRef 1], 0⟩
          (.href 0) (.href 1) = some (h', s') ∧
      rb_tr_unwrap s' h' = some (.arrayRef 0) ∧
      heapGet s' 0 = some ([.vint 1] ++ [.vint 2, .vint 3]) ∧
      ([MValue.vint 1] ++ [MValue.vint 2, MValue.vint 3]).length =
        [MValue.vint 1].length + [MValue.vint 2, MValue.vint 3].length :=
  concat_appends_in_place_returns_self
    ⟨[[.vint 1], [.vint 2, .vint 3]], [.arrayRef 0, .arrayRef 1], 0⟩
    (.href 0) (.href 1) 0 1 [.vint 1] [.vint 2, .vint 3]
    (by decide) (by decide) (by decide) (by decide)

/-- C6: `to_ary(x)` returns the very same handle (and leaves the state
untouched) when `x` already refers to an array; otherwise it returns a new
length-1 array whose single element is `x`'s value. -/
theorem to_ary_identity_or_singleton :
    (∀ (s : MState) (x : Handle) (r : Nat),
      rb_tr_unwrap s x = some (.arrayRef r) →
      rb_ary_to_ary s x = some (x, s)) ∧
    (∀ (s : MState) (x : Handle) (v : MValue),
      rb_tr_unwrap s x = some v → (∀ r, v ≠ .arrayRef r) →
      ∃ (h' : Handle) (s' : MState),
        rb_ary_to_ary s x = some (h', s') ∧
        rb_tr_unwrap s' h' = some (.arrayRef s.heap.length) ∧
        heapGet s s.heap.length = none ∧
        heapGet s' s.heap.length = some [v]) := by
  constructor
  · intro s x r hx
    have hc : rb_check_array_type s x = some (x, s) := by
      simp [rb_check_array_type, hx]
    have hnx : ¬ (NIL_P x = true) := by
      intro hq
      have hxq : x = Qnil := by simpa [NIL_P] using hq
      subst hxq
      simp [rb_tr_unwrap, Qnil, isTaggedImmediate] at hx
    rw [rb_ary_to_ary, hc]
    show (if ¬ NIL_P x = true then some (x, s)
        else rb_ary_new_from_args s 1 [x]) = some (x, s)
    rw [if_pos hnx]
  · intro s x v hx hv
    have hc : rb_check_array_type s x = some (Qnil, s) := by
      cases v with
      | vnil => simp [rb_check_array_type, hx]
      | vbool b => simp [rb_check_array_type, hx]
      | vint n => simp [rb_check_array_type, hx]
      | arrayRef r => exact absurd rfl (hv r)
    have hvx : unwrapList s [x] = some [v] := by simp [unwrapList, hx]
    have hspec := new_from_values_spec s [x] [v] hvx
    simp only [List.length_singleton] at hspec
    obtain ⟨a, s', hcall, hu, hn, hh, _, _, _⟩ := hspec
    refine ⟨a, s', ?_, hu, hn, hh⟩
    rw [rb_ary_to_ary, hc]
    show (if ¬ NIL_P Qnil = true then some (Qnil, s)
        else rb_ary_new_from_args s 1 [x]) = some (a, s')
    rw [if_neg (by simp [NIL_P]), new_from_args_eq_values]
    exact hcall

/-- Witness for C6: `to_ary` on an array handle is the identity; on the
integer 5 it builds the fresh one-element array `[5]`. -/
theorem to_ary_identity_or_singleton_witness :
    rb_ary_to_ary ⟨[[]], [.arrayRef 0], 0⟩ (.href 0) =
      some (.href 0, ⟨[[]], [.arrayRef 0], 0⟩) ∧
    (∃ (h' : Handle) (s' : MState),
      rb_ary_to_ary ⟨[[]], [.arrayRef 0], 0⟩ (.imm (.vint 5)) = some (h', s') ∧
      rb_tr_unwrap s' h' = some (.arrayRef 1) ∧
      heapGet ⟨[[]], [.arrayRef 0], 0⟩ 1 = none ∧
      heapGet s' 1 = some [.vint 5]) :=
  ⟨to_ary_identity_or_singleton.1 _ _ 0 (by decide),
   to_ary_identity_or_singleton.2 ⟨[[]], [.arrayRef 0], 0⟩ (.imm (.vint 5))
     (.vint 5) (by decide) (fun r h => MValue.noConfusion h)⟩

/-- C7: `new_from_args(n, ...)` and `new_from_values(n, values)` with `n`
matching the number of supplied values return a fresh array holding
exactly those `n` values in order (for `n` within the `int` loop-counter
range of the source). -/
theorem new_from_args_values_build_in_order :
    ∀ (s : MState) (values : List Handle) (vs : List MValue),
      unwrapList s values = some vs →
      ((values.length : Int) < 2 ^ 31) →
      ∃ (a : Handle) (s' : MState),
        rb_ary_new_from_values s values.length values = some (a, s') ∧
        rb_ary_new_from_args s values.length values = some (a, s') ∧
        rb_tr_unwrap s' a = some (.arrayRef s.heap.length) ∧
        heapGet s s.heap.length = none ∧
        heapGet s' s.heap.length = some vs ∧
        vs.length = values.length ∧
        (∀ i, vs.get? i = (values.get? i).bind (rb_tr_unwrap s)) := by
  intro s values vs hvs hint
  obtain ⟨a, s', hcall, hu, hn, hh, _, _, _⟩ := new_from_values_spec s values vs hvs
  exact ⟨a, s', hcall, by rw [new_from_args_eq_values]; exact hcall, hu, hn, hh,
    unwrapList_length hvs, unwrapList_get? hvs⟩

/-- Witness for C7: building `[7, 8]` from two tagged-immediate handles. -/
theorem new_from_args_values_build_in_order_witness :
    ∃ (a : Handle) (s' : MState),
      rb_ary_new_from_values ⟨[], [], 0⟩ 2 [.imm (.vint 7), .imm (.vint 8)] =
        some (a, s') ∧
      rb_ary_new_from_args ⟨[], [], 0⟩ 2 [.imm (.vint 7), .imm (.vint 8)] =
        some (a, s') ∧
      rb_tr_unwrap s' a = some (.arrayRef 0) ∧
      heapGet ⟨[], [], 0⟩ 0 = none ∧
      heapGet s' 0 = some [.vint 7, .vint 8] ∧
      ([MValue.vint 7, MValue.vint 8]).length =
        ([Handle.imm (MValue.vint 7), Handle.imm (MValue.vint 8)]).length ∧
      (∀ i, ([MValue.vint 7, MValue.vint 8]).get? i =
        (([Handle.imm (MValue.vint 7), Handle.imm (MValue.vint 8)]).get? i).bind
          (rb_tr_unwrap ⟨[], [], 0⟩)) :=
  new_from_args_values_build_in_order ⟨[], [], 0⟩
    [.imm (.vint 7), .imm (.vint 8)] [.vint 7, .vint 8] (by decide) (by decide)

/-- C9: `delete_at(a, i)` with `0 ≤ i < n` returns the element that was at
index `i`, shrinks the array in place to length `n - 1`, and shifts every
element after `i` down by one index. -/
theorem delete_at_removes_and_shifts_down :
    ∀ (s : MState) (a : Handle) (r : Nat) (l : List MValue) (i : Int),
      rb_tr_unwrap s a = some (.arrayRef r) → heapGet s r = some l →
      0 ≤ i → i < (l.length : Int) →
      ∃ (h' : Handle) (s' : MState),
        rb_ary_delete_at s a i = some (h', s') ∧
        rb_tr_unwrap s' h' = some (l.getD i.toNat .vnil) ∧
        heapGet s' r = some (l.eraseIdx i.toNat) ∧
        (l.eraseIdx i.toNat).length = l.length - 1 ∧
        (∀ j, i.toNat < j → j < l.length →
          (l.eraseIdx i.toNat).get? (j - 1) = l.get? j) := by
  intro s a r l i ha hl h0 hlt
  have hcall : rb_ary_delete_at s a i =
      some (rb_tr_wrap (heapSet (tick s) r (l.eraseIdx i.toNat))
        (l.getD i.toNat .vnil)) := by
    rw [rb_ary_delete_at,
      polyglot_invoke_wrap_eq "delete_at" ha
        (m_invoke_delete_at_hit hl (normIndex_of_nonneg_lt h0 hlt))]
  obtain ⟨h', s', hf, hu, hh⟩ := invoke_wrap_inplace hcall hl
  have hilt : i.toNat < l.length := by omega
  refine ⟨h', s', hf, hu, hh, length_eraseIdx_of_lt hilt, ?_⟩
  intro j hj hjl
  exact get?_eraseIdx_of_gt l i.toNat j hj hjl

/-- Witness for C9: deleting index 1 of `[10, 20, 30]` returns 20 and
leaves `[10, 30]`. -/
theorem delete_at_removes_and_shifts_down_witness :
    (∃ (h' : Handle) (s' : MState),
      rb_ary_delete_at ⟨[[.vint 10, .vint 20, .vint 30]], [.arrayRef 0], 0⟩
          (.href 0) 1 = some (h', s') ∧
      rb_tr_unwrap s' h' =
        some ([MValue.vint 10, MValue.vint 20, MValue.vint 30].getD
          (1 : Int).toNat .vnil) ∧
      heapGet s' 0 =
        some ([MValue.vint 10, MValue.vint 20, MValue.vint 30].eraseIdx
          (1 : Int).toNat) ∧
      ([MValue.vint 10, MValue.vint 20, MValue.vint 30].eraseIdx
          (1 : Int).toNat).length =
        [MValue.vint 10, MValue.vint 20, MValue.vint 30].length - 1 ∧
      (∀ j, (1 : Int).toNat < j →
        j < [MValue.vint 10, MValue.vint 20, MValue.vint 30].length →
        ([MValue.vint 10, MValue.vint 20, MValue.vint 30].eraseIdx
          (1 : Int).toNat).get? (j - 1) =
          [MValue.vint 10, MValue.vint 20, MValue.vint 30].get? j)) ∧
    [MValue.vint 10, MValue.vint 20, MValue.vint 30].eraseIdx (1 : Int).toNat =
      [MValue.vint 10, MValue.vint 30] :=
  ⟨delete_at_removes_and_shifts_down
      ⟨[[.vint 10, .vint 20, .vint 30]], [.arrayRef 0], 0⟩ (.href 0) 0
      [.vint 10, .vint 20, .vint 30] 1 (by decide) (by decide) (by decide)
      (by decide),
   by decide⟩

/-- C10: `RARRAY_AREF` truncates its `long` index to 32 bits before the
element read — it behaves exactly as if called with `(int) index`, the
read happens at position `toInt32 index`, and `toInt32` moves every index
not representable in 32 bits — while `rb_ary_entry` passes the full
index through to the managed `[]`. -/
theorem RARRAY_AREF_truncates_index_to_int32 :
    (∀ (s : MState) (a : Handle) (i : Int),
      RARRAY_AREF s a i = RARRAY_AREF s a (toInt32 i)) ∧
    (∀ (s : MState) (a : Handle) (r : Nat) (l : List MValue) (i : Int),
      rb_tr_unwrap s a = some (.arrayRef r) → heapGet s r = some l →
      0 ≤ toInt32 i → toInt32 i < (l.length : Int) →
      RARRAY_AREF s a i =
        some (rb_tr_wrap s (l.getD (toInt32 i).toNat .vnil))) ∧
    (∀ i : Int, (i < -(2 ^ 31) ∨ 2 ^ 31 ≤ i) → toInt32 i ≠ i) ∧
    (∀ (s : MState) (a : Handle) (r : Nat) (l : List MValue) (i : Int),
      rb_tr_unwrap s a = some (.arrayRef r) → heapGet s r = some l →
      0 ≤ i → i < (l.length : Int) →
      rb_ary_entry s a i =
        some (rb_tr_wrap (tick s) (l.getD i.toNat .vnil))) := by
  refine ⟨?_, ?_, ?_, ?_⟩
  · intro s a i
    simp only [RARRAY_AREF, toInt32_idem]
  · intro s a r l i ha hl h0 hlt
    have hp : polyglot_get_array_element s (.arrayRef r) (toInt32 i) =
        some (l.getD (toInt32 i).toNat .vnil) := by
      simp [polyglot_get_array_element, hl, h0, hlt]
    simp only [RARRAY_AREF, ha, hp]
  · intro i hi
    have hb := toInt32_bounds i
    omega
  · intro s a r l i ha hl h0 hlt
    rw [rb_ary_entry,
      polyglot_invoke_wrap_eq "[]" ha
        (m_invoke_aref_hit hl (normIndex_of_nonneg_lt h0 hlt))]

/-- Witness for C10: reading index `2^32 + 1` of `[10, 11, 12]` through
`RARRAY_AREF` actually reads index 1 (`toInt32 (2^32 + 1) = 1`), while
`rb_ary_entry` at index 1 reads index 1 directly. -/
theorem RARRAY_AREF_truncates_index_to_int32_witness :
    RARRAY_AREF ⟨[[.vint 10, .vint 11, .vint 12]], [.arrayRef 0], 0⟩ (.href 0)
        (2 ^ 32 + 1) =
      some (rb_tr_wrap ⟨[[.vint 10, .vint 11, .vint 12]], [.arrayRef 0], 0⟩
        ([MValue.vint 10, MValue.vint 11, MValue.vint 12].getD
          (toInt32 (2 ^ 32 + 1)).toNat .vnil)) ∧
    toInt32 (2 ^ 32 + 1) ≠ (2 ^ 32 + 1) ∧
    rb_ary_entry ⟨[[.vint 10, .vint 11, .vint 12]], [.arrayRef 0], 0⟩ (.href 0)
        1 =
      some (rb_tr_wrap (tick ⟨[[.vint 10, .vint 11, .vint 12]], [.arrayRef 0], 0⟩)
        ([MValue.vint 10, MValue.vint 11, MValue.vint 12].getD
          (1 : Int).toNat .vnil)) ∧
    toInt32 (2 ^ 32 + 1) = 1 :=
  ⟨RARRAY_AREF_truncates_index_to_int32.2.1
      ⟨[[.vint 10, .vint 11, .vint 12]], [.arrayRef 0], 0⟩ (.href 0) 0
      [.vint 10, .vint 11, .vint 12] (2 ^ 32 + 1) (by decide) (by decide)
      (by decide) (by decide),
   RARRAY_AREF_truncates_index_to_int32.2.2.1 (2 ^ 32 + 1) (by decide),
   RARRAY_AREF_truncates_index_to_int32.2.2.2
      ⟨[[.vint 10, .vint 11, .vint 12]], [.arrayRef 0], 0⟩ (.href 0) 0
      [.vint 10, .vint 11, .vint 12] 1 (by decide) (by decide) (by decide)
      (by decide),
   by decide⟩

/-- C2: every "in place" operation — push, unshift, reverse, clear,
concat, cat, sort!, and the removal operations pop/shift/delete/delete_at
— mutates the array its handle refers to (the heap entry at the same
reference is rewritten, no copy is made), and the operations whose
contract says "returns a" hand back a handle referring to that same
array; the removal operations return their documented value, the removed
element. -/
theorem in_place_operations_mutate_and_return_self :
    (∀ (s : MState) (a v : Handle) (r : Nat) (l : List MValue) (x : MValue),
      rb_tr_unwrap s a = some (.arrayRef r) → heapGet s r = some l →
      rb_tr_unwrap s v = some x →
      ∃ s' : MState, rb_ary_push s a v = some (a, s') ∧
        rb_tr_unwrap s' a = some (.arrayRef r) ∧
        heapGet s' r = some (l ++ [x])) ∧
    (∀ (s : MState) (a v : Handle) (r : Nat) (l : List MValue) (x : MValue),
      rb_tr_unwrap s a = some (.arrayRef r) → heapGet s r = some l →
      rb_tr_unwrap s v = some x →
      ∃ (h' : Handle) (s' : MState), rb_ary_unshift s a v = some (h', s') ∧
        rb_tr_unwrap s' h' = some (.arrayRef r) ∧
        heapGet s' r = some (x :: l)) ∧
    (∀ (s : MState) (a : Handle) (r : Nat) (l : List MValue),
      rb_tr_unwrap s a = some (.arrayRef r) → heapGet s r = some l →
      ∃ (h' : Handle) (s' : MState), rb_ary_reverse s a = some (h', s') ∧
        rb_tr_unwrap s' h' = some (.arrayRef r) ∧
        heapGet s' r = some l.reverse) ∧
    (∀ (s : MState) (a : Handle) (r : Nat) (l : List MValue),
      rb_tr_unwrap s a = some (.arrayRef r) → heapGet s r = some l →
      ∃ (h' : Handle) (s' : MState), rb_ary_clear s a = some (h', s') ∧
        rb_tr_unwrap s' h' = some (.arrayRef r) ∧
        heapGet s' r = some []) ∧
    (∀ (s : MState) (a b : Handle) (ra rbb : Nat) (la lb : List MValue),
      rb_tr_unwrap s a = some (.arrayRef ra) →
      rb_tr_unwrap s b = some (.arrayRef rbb) →
      heapGet s ra = some la → heapGet s rbb = some lb →
      ∃ (h' : Handle) (s' : MState), rb_ary_concat s a b = some (h', s') ∧
        rb_tr_unwrap s' h' = some (.arrayRef ra) ∧
        heapGet s' ra = some (la ++ lb)) ∧
    (∀ (s : MState) (a : Handle) (cat : List Handle) (r : Nat)
        (l : List MValue) (xs : List MValue),
      rb_tr_unwrap s a = some (.arrayRef r) → heapGet s r = some l →
      unwrapList s cat = some xs →
      ∃ (h' : Handle) (s' : MState),
        rb_ary_cat s a cat cat.length = some (h', s') ∧
        rb_tr_unwrap s' h' = some (.arrayRef r) ∧
        heapGet s' r = some (l ++ xs)) ∧
    (∀ (s : MState) (a : Handle) (r : Nat) (l : List MValue) (ns : List Int),
      rb_tr_unwrap s a = some (.arrayRef r) → heapGet s r = some l →
      asInts l = some ns →
      ∃ (h' : Handle) (s' : MState), rb_ary_sort_bang s a = some (h', s') ∧
        rb_tr_unwrap s' h' = some (.arrayRef r) ∧
        heapGet s' r = some ((sortInts ns).map .vint)) ∧
    (∀ (s : MState) (a : Handle) (r : Nat) (l : List MValue) (x : MValue),
      rb_tr_unwrap s a = some (.arrayRef r) → heapGet s r = some l →
      l.getLast? = some x →
      ∃ (h' : Handle) (s' : MState), rb_ary_pop s a = some (h', s') ∧
        rb_tr_unwrap s' h' = some x ∧
        heapGet s' r = some l.dropLast) ∧
    (∀ (s : MState) (a : Handle) (r : Nat) (x : MValue) (t : List MValue),
      rb_tr_unwrap s a = some (.arrayRef r) → heapGet s r = some (x :: t) →
      ∃ (h' : Handle) (s' : MState), rb_ary_shift s a = some (h', s') ∧
        rb_tr_unwrap s' h' = some x ∧
        heapGet s' r = some t) ∧
    (∀ (s : MState) (a v : Handle) (r : Nat) (l l' : List MValue) (x : MValue),
      rb_tr_unwrap s a = some (.arrayRef r) → heapGet s r = some l →
      rb_tr_unwrap s v = some x → deleteFirst l x = some l' →
      ∃ (h' : Handle) (s' : MState), rb_ary_delete s a v = some (h', s') ∧
        rb_tr_unwrap s' h' = some x ∧
        heapGet s' r = some l') ∧
    (∀ (s : MState) (a : Handle) (r : Nat) (l : List MValue) (i : Int) (j : Nat),
      rb_tr_unwrap s a = some (.arrayRef r) → heapGet s r = some l →
      normIndex l.length i = some j →
      ∃ (h' : Handle) (s' : MState), rb_ary_delete_at s a i = some (h', s') ∧
        rb_tr_unwrap s' h' = some (l.getD j .vnil) ∧
        heapGet s' r = some (l.eraseIdx j)) := by
  refine ⟨?_, ?_, ?_, ?_, ?_, ?_, ?_, ?_, ?_, ?_, ?_⟩
  · intro s a v r l x ha hl hv
    have hcall : rb_ary_push s a v = some (a, heapSet (tick s) r (l ++ [x])) := by
      rw [rb_ary_push,
        RUBY_INVOKE_NO_WRAP_eq "push" ha (by simp [unwrapList, hv])
          (m_invoke_push x hl)]
    refine ⟨heapSet (tick s) r (l ++ [x]), hcall, ?_, ?_⟩
    · rw [unwrap_congr_table rfl a]
      exact ha
    · exact heapGet_heapSet_self ((heapGet_tick s r).trans hl) _
  · intro s a v r l x ha hl hv
    have hcall : rb_ary_unshift s a v =
        some (rb_tr_wrap (heapSet (tick s) r (x :: l)) (.arrayRef r)) := by
      rw [rb_ary_unshift,
        RUBY_INVOKE_eq "unshift" ha (by simp [unwrapList, hv])
          (m_invoke_unshift x hl)]
    exact invoke_wrap_inplace hcall hl
  · intro s a r l ha hl
    have hcall : rb_ary_reverse s a =
        some (rb_tr_wrap (heapSet (tick s) r l.reverse) (.arrayRef r)) := by
      rw [rb_ary_reverse,
        RUBY_INVOKE_eq "reverse!" ha (show unwrapList s [] = some [] from rfl)
          (m_invoke_reverse hl)]
    exact invoke_wrap_inplace hcall hl
  · intro s a r l ha hl
    have hcall : rb_ary_clear s a =
        some (rb_tr_wrap (heapSet (tick s) r []) (.arrayRef r)) := by
      rw [rb_ary_clear,
        RUBY_INVOKE_eq "clear" ha (show unwrapList s [] = some [] from rfl)
          (m_invoke_clear hl)]
    exact invoke_wrap_inplace hcall hl
  · intro s a b ra rbb la lb ha hb hla hlb
    have hcall : rb_ary_concat s a b =
        some (rb_tr_wrap (heapSet (tick s) ra (la ++ lb)) (.arrayRef ra)) := by
      rw [rb_ary_concat,
        RUBY_INVOKE_eq "concat" ha (by simp [unwrapList, hb])
          (m_invoke_concat hla hlb)]
    exact invoke_wrap_inplace hcall hla
  · intro s a cat r l xs ha hl hcat
    obtain ⟨tmp, s₁, hnv, hutmp, hn1, hh1, htab1, hother1, _⟩ :=
      new_from_values_spec s cat xs hcat
    have hrne : r ≠ s.heap.length := Nat.ne_of_lt (heapGet_lt hl)
    have hl₁ : heapGet s₁ r = some l := by
      rw [hother1 r hrne]
      exact hl
    have ha₁ : rb_tr_unwrap s₁ a = some (.arrayRef r) :=
      unwrap_table_extend htab1 ha
    have hargs : unwrapList s₁ [tmp] = some [.arrayRef s.heap.length] := by
      simp [unwrapList, hutmp]
    have hcall : RUBY_INVOKE s₁ a "concat" [tmp] =
        some (rb_tr_wrap (heapSet (tick s₁) r (l ++ xs)) (.arrayRef r)) := by
      rw [RUBY_INVOKE_eq "concat" ha₁ hargs (m_invoke_concat hl₁ hh1)]
    obtain ⟨h', s', hf, hu, hh⟩ := invoke_wrap_inplace hcall hl₁
    refine ⟨h', s', ?_, hu, hh⟩
    rw [rb_ary_cat, hnv]
    exact hf
  · intro s a r l ns ha hl hns
    have hcall : rb_ary_sort_bang s a =
        some (rb_tr_wrap (heapSet (tick s) r ((sortInts ns).map .vint))
          (.arrayRef r)) := by
      rw [rb_ary_sort_bang,
        RUBY_INVOKE_eq "sort!" ha (show unwrapList s [] = some [] from rfl)
          (m_invoke_sort_bang hl hns)]
    exact invoke_wrap_inplace hcall hl
  · intro s a r l x ha hl hx
    have hcall : rb_ary_pop s a =
        some (rb_tr_wrap (heapSet (tick s) r l.dropLast) x) := by
      rw [rb_ary_pop,
        RUBY_INVOKE_eq "pop" ha (show unwrapList s [] = some [] from rfl)
          (m_invoke_pop_last hl hx)]
    exact invoke_wrap_inplace hcall hl
  · intro s a r x t ha hl
    have hcall : rb_ary_shift s a =
        some (rb_tr_wrap (heapSet (tick s) r t) x) := by
      rw [rb_ary_shift,
        RUBY_INVOKE_eq "shift" ha (show unwrapList s [] = some [] from rfl)
          (m_invoke_shift_cons hl)]
    exact invoke_wrap_inplace hcall hl
  · intro s a v r l l' x ha hl hv hd
    have hcall : rb_ary_delete s a v =
        some (rb_tr_wrap (heapSet (tick s) r l') x) := by
      rw [rb_ary_delete,
        RUBY_INVOKE_eq "delete" ha (by simp [unwrapList, hv])
          (m_invoke_delete_found hl hd)]
    exact invoke_wrap_inplace hcall hl
  · intro s a r l i j ha hl hi
    have hcall : rb_ary_delete_at s a i =
        some (rb_tr_wrap (heapSet (tick s) r (l.eraseIdx j))
          (l.getD j .vnil)) := by
      rw [rb_ary_delete_at,
        polyglot_invoke_wrap_eq "delete_at" ha (m_invoke_delete_at_hit hl hi)]
    exact invoke_wrap_inplace hcall hl

/-- Witness for C2: each in-place operation exercised on a concrete
one- or two-element array. -/
theorem in_place_operations_mutate_and_return_self_witness :
    (∃ s' : MState,
      rb_ary_push ⟨[[.vint 1]], [.arrayRef 0], 0⟩ (.href 0) (.imm (.vint 5)) =
        some (.href 0, s') ∧
      rb_tr_unwrap s' (.href 0) = some (.arrayRef 0) ∧
      heapGet s' 0 = some ([MValue.vint 1] ++ [MValue.vint 5])) ∧
    (∃ (h' : Handle) (s' : MState),
      rb_ary_unshift ⟨[[.vint 1]], [.arrayRef 0], 0⟩ (.href 0) (.imm (.vint 5)) =
        some (h', s') ∧
      rb_tr_unwrap s' h' = some (.arrayRef 0) ∧
      heapGet s' 0 = some (MValue.vint 5 :: [MValue.vint 1])) ∧
    (∃ (h' : Handle) (s' : MState),
      rb_ary_reverse ⟨[[.vint 1]], [.arrayRef 0], 0⟩ (.href 0) = some (h', s') ∧
      rb_tr_unwrap s' h' = some (.arrayRef 0) ∧
      heapGet s' 0 = some ([MValue.vint 1]).reverse) ∧
    (∃ (h' : Handle) (s' : MState),
      rb_ary_clear ⟨[[.vint 1]], [.arrayRef 0], 0⟩ (.href 0) = some (h', s') ∧
      rb_tr_unwrap s' h' = some (.arrayRef 0) ∧
      heapGet s' 0 = some []) ∧
    (∃ (h' : Handle) (s' : MState),
      rb_ary_concat ⟨[[.vint 1], [.vint 2]], [.arrayRef 0, .arrayRef 1], 0⟩
          (.href 0) (.href 1) = some (h', s') ∧
      rb_tr_unwrap s' h' = some (.arrayRef 0) ∧
      heapGet s' 0 = some ([MValue.vint 1] ++ [MValue.vint 2])) ∧
    (∃ (h' : Handle) (s' : MState),
      rb_ary_cat ⟨[[.vint 1]], [.arrayRef 0], 0⟩ (.href 0)
          [.imm (.vint 9)] 1 = some (h', s') ∧
      rb_tr_unwrap s' h' = some (.arrayRef 0) ∧
      heapGet s' 0 = some ([MValue.vint 1] ++ [MValue.vint 9])) ∧
    (∃ (h' : Handle) (s' : MState),
      rb_ary_sort_bang ⟨[[.vint 2, .vint 1]], [.arrayRef 0], 0⟩ (.href 0) =
        some (h', s') ∧
      rb_tr_unwrap s' h' = some (.arrayRef 0) ∧
      heapGet s' 0 = some ((sortInts [2, 1]).map MValue.vint)) ∧
    (∃ (h' : Handle) (s' : MState),
      rb_ary_pop ⟨[[.vint 1]], [.arrayRef 0], 0⟩ (.href 0) = some (h', s') ∧
      rb_tr_unwrap s' h' = some (.vint 1) ∧
      heapGet s' 0 = some ([MValue.vint 1]).dropLast) ∧
    (∃ (h' : Handle) (s' : MState),
      rb_ary_shift ⟨[[.vint 1]], [.arrayRef 0], 0⟩ (.href 0) = some (h', s') ∧
      rb_tr_unwrap s' h' = some (.vint 1) ∧
      heapGet s' 0 = some []) ∧
    (∃ (h' : Handle) (s' : MState),
      rb_ary_delete ⟨[[.vint 1]], [.arrayRef 0], 0⟩ (.href 0) (.imm (.vint 1)) =
        some (h', s') ∧
      rb_tr_unwrap s' h' = some (.vint 1) ∧
      heapGet s' 0 = some []) ∧
    (∃ (h' : Handle) (s' : MState),
      rb_ary_delete_at ⟨[[.vint 1]], [.arrayRef 0], 0⟩ (.href 0) 0 =
        some (h', s') ∧
      rb_tr_unwrap s' h' = some ([MValue.vint 1].getD 0 .vnil) ∧
      heapGet s' 0 = some ([MValue.vint 1].eraseIdx 0)) :=
  ⟨in_place_operations_mutate_and_return_self.1
      ⟨[[.vint 1]], [.arrayRef 0], 0⟩ (.href 0) (.imm (.vint 5)) 0
      [.vint 1] (.vint 5) (by decide) (by decide) (by decide),
   in_place_operations_mutate_and_return_self.2.1
      ⟨[[.vint 1]], [.arrayRef 0], 0⟩ (.href 0) (.imm (.vint 5)) 0
      [.vint 1] (.vint 5) (by decide) (by decide) (by decide),
   in_place_operations_mutate_and_return_self.2.2.1
      ⟨[[.vint 1]], [.arrayRef 0], 0⟩ (.href 0) 0 [.vint 1]
      (by decide) (by decide),
   in_place_operations_mutate_and_return_self.2.2.2.1
      ⟨[[.vint 1]], [.arrayRef 0], 0⟩ (.href 0) 0 [.vint 1]
      (by decide) (by decide),
   in_place_operations_mutate_and_return_self.2.2.2.2.1
      ⟨[[.vint 1], [.vint 2]], [.arrayRef 0, .arrayRef 1], 0⟩ (.href 0)
      (.href 1) 0 1 [.vint 1] [.vint 2]
      (by decide) (by decide) (by decide) (by decide),
   in_place_operations_mutate_and_return_self.2.2.2.2.2.1
      ⟨[[.vint 1]], [.arrayRef 0], 0⟩ (.href 0) [.imm (.vint 9)] 0
      [.vint 1] [.vint 9] (by decide) (by decide) (by decide),
   in_place_operations_mutate_and_return_self.2.2.2.2.2.2.1
      ⟨[[.vint 2, .vint 1]], [.arrayRef 0], 0⟩ (.href 0) 0
      [.vint 2, .vint 1] [2, 1] (by decide) (by decide) (by decide),
   in_place_operations_mutate_and_return_self.2.2.2.2.2.2.2.1
      ⟨[[.vint 1]], [.arrayRef 0], 0⟩ (.href 0) 0 [.vint 1] (.vint 1)
      (by decide) (by decide) (by decide),
   in_place_operations_mutate_and_return_self.2.2.2.2.2.2.2.2.1
      ⟨[[.vint 1]], [.arrayRef 0], 0⟩ (.href 0) 0 (.vint 1) []
      (by decide) (by decide),
   in_place_operations_mutate_and_return_self.2.2.2.2.2.2.2.2.2.1
      ⟨[[.vint 1]], [.arrayRef 0], 0⟩ (.href 0) (.imm (.vint 1)) 0
      [.vint 1] [] (.vint 1) (by decide) (by decide) (by decide) (by decide),
   in_place_operations_mutate_and_return_self.2.2.2.2.2.2.2.2.2.2
      ⟨[[.vint 1]], [.arrayRef 0], 0⟩ (.href 0) 0 [.vint 1] 0 0
      (by decide) (by decide) (by decide)⟩

/-- C8 counterexample: building `[7, 8]` (n = 2) with
`rb_ary_new_from_values` issues 3 managed-side invocations — one per item
plus one for the allocation — exactly as many as the per-item build
(`rb_ary_new` followed by 2 pushes), and not fewer than 2 per-item calls:
the items are delivered one dispatch per element, not in bulk. -/
theorem bulk_constructor_dispatch_counterexample :
    rb_ary_new_from_values ⟨[], [], 0⟩ 2 [.imm (.vint 7), .imm (.vint 8)] =
      some (.href 0, ⟨[[.vint 7, .vint 8]], [.arrayRef 0], 3⟩) ∧
    perItemBuild ⟨[], [], 0⟩ [.imm (.vint 7), .imm (.vint 8)] =
      some (.href 0, ⟨[[.vint 7, .vint 8]], [.arrayRef 0], 3⟩) ∧
    ¬ ((3 : Nat) < 3) ∧ ¬ ((3 : Nat) < 2) := by
  refine ⟨by decide, by decide, by decide, by decide⟩

/-- C8 as amended: `new_from_values(n, values)` issues exactly `n + 1`
managed-side invocations — one dispatch per element plus one for the
allocation — which is the same count as `n` per-item pushes after a
per-item construction, not fewer. -/
theorem bulk_constructor_dispatches_one_per_item :
    ∀ (s : MState) (values : List Handle) (vs : List MValue),
      unwrapList s values = some vs →
      ∃ (a : Handle) (s' : MState) (b : Handle) (s'' : MState),
        rb_ary_new_from_values s values.length values = some (a, s') ∧
        perItemBuild s values = some (b, s'') ∧
        s'.dispatches = s.dispatches + 1 + values.length ∧
        s''.dispatches = s.dispatches + 1 + values.length := by
  intro s values vs hvs
  obtain ⟨a, s', hcall, _, _, _, _, _, hdisp⟩ := new_from_values_spec s values vs hvs
  obtain ⟨b, s'', hcall', _, _, hdisp'⟩ := perItemBuild_spec s values vs hvs
  exact ⟨a, s', b, s'', hcall, hcall', hdisp, hdisp'⟩

/-- Witness for the amended C8: the dispatch counts for building `[7, 8]`. -/
theorem bulk_constructor_dispatches_one_per_item_witness :
    ∃ (a : Handle) (s' : MState) (b : Handle) (s'' : MState),
      rb_ary_new_from_values ⟨[], [], 0⟩ 2 [.imm (.vint 7), .imm (.vint 8)] =
        some (a, s') ∧
      perItemBuild ⟨[], [], 0⟩ [.imm (.vint 7), .imm (.vint 8)] =
        some (b, s'') ∧
      s'.dispatches = 0 + 1 + 2 ∧
      s''.dispatches = 0 + 1 + 2 :=
  bulk_constructor_dispatches_one_per_item ⟨[], [], 0⟩
    [.imm (.vint 7), .imm (.vint 8)] [.vint 7, .vint 8] (by decide)

end CExtArray
